import Mathlib

/-!
Verification of the retrieval core of `graphrag_mcp`
(`src/graphrag_mcp/documentation_tool.py`).

The development shallowly embeds `DocumentationGPTTool.search_documentation`
and `DocumentationGPTTool.hybrid_search`, together with the semantics of the
two Cypher queries they issue against the graph store and the
version-fallback logic of the vector-index call.  External collaborators
(the embedding model, the Qdrant client, the Neo4j driver) are modelled as
explicit data in an environment record; similarity scores are modelled as
integers (only their ordering matters to the code under study).
-/

namespace GraphragMCP

/-- A `Document` node of the graph store: the code reads `d.id` and
`d.title`. -/
structure Doc where
  id : Nat
  title : String
deriving DecidableEq, Repr

/-- The part of the graph database visible to the two Cypher queries of
`documentation_tool.py`: `Document` nodes, `PART_OF` edges from chunk ids to
document ids, `RELATED_TO` edges between document ids, and `HAS_CATEGORY`
edges from document ids to category names. -/
structure GraphDB where
  docs : List Doc
  chunkOwner : List (Nat × Nat)
  relatedTo : List (Nat × Nat)
  hasCategory : List (Nat × String)
deriving DecidableEq, Repr

/-- Well-formedness of the graph store: document ids identify nodes. -/
def GraphDB.wf (db : GraphDB) : Prop :=
  (db.docs.map (fun d => d.id)).Nodup

/-- One hit returned by the Qdrant client: `result.id`, `result.score` and
the optional `text` field of `result.payload`. -/
structure QdrantHit where
  id : Nat
  score : Int
  payloadText : Option String
deriving DecidableEq, Repr

/-- Outcome of one invocation of `qdrant_client.search`: a normal return, a
`TypeError` (signature mismatch between client versions), or any other
exception. -/
inductive QdrantOutcome where
  | ok (hits : List QdrantHit)
  | typeError (msg : String)
  | otherError (msg : String)
deriving DecidableEq, Repr

/-- The Qdrant client, as seen through the two call shapes the code tries:
the canonical `query_vector=` shape and the legacy `vector=` shape, each a
function of the `limit` argument passed by the caller. -/
structure QdrantClient where
  canonical : Nat → QdrantOutcome
  legacy : Nat → QdrantOutcome

/-- State of the lazily initialised sentence-transformer model: loaded, or
failing to load with a message. -/
inductive ModelState where
  | loaded
  | loadFails (msg : String)

/-- The environment a call of the tool runs against: the embedding model,
the Qdrant client, whether `self.neo4j_driver` is non-`None`, the graph
database, and whether each of the two Neo4j sessions raises (the first-pass
expansion query and the deep-expansion query). -/
structure Env where
  model : ModelState
  qdrant : QdrantClient
  neo4jUp : Bool
  db : GraphDB
  graphFail : Option String
  deepFail : Option String

/-- One element of `results["chunks"]`. -/
structure Chunk where
  chunk_id : Nat
  text : String
  score : Int
deriving DecidableEq, Repr

/-- One element of `results["related_documents"]`.  `doc_id`/`title` are
`Option`s because the first-pass Cypher query can produce a `null` entry
(an origin document with no outgoing `RELATED_TO` edge contributes the map
`{doc_id: null, title: null}` to the collected list); `graph_score` is
present only on entries appended by the deep-expansion phase. -/
structure RelDoc where
  doc_id : Option Nat
  title : Option String
  graph_score : Option Nat
deriving DecidableEq, Repr

/-- The dictionary returned by both tool methods. -/
structure SearchResult where
  query : String
  chunks : List Chunk
  related_documents : List RelDoc
  error : Option String
deriving DecidableEq, Repr

/-! ## Semantics of the first-pass Cypher query -/

/-- `(d)-[:HAS_CATEGORY]->(:Category {name: c})`. -/
def hasCat (db : GraphDB) (d : Nat) (c : String) : Bool :=
  db.hasCategory.any (fun p => p.1 == d && p.2 == c)

/-- `MATCH (c:Chunk) WHERE c.id IN $chunk_ids MATCH (c)-[:PART_OF]->(d)`:
document `d` owns at least one of the retrieved chunks. -/
def ownsChunk (db : GraphDB) (chunkIds : List Nat) (d : Nat) : Bool :=
  db.chunkOwner.any (fun p => chunkIds.contains p.1 && p.2 == d)

/-- The distinct origin documents of the first-pass query: owners of a
retrieved chunk, restricted to the category when a filter is given (the
`-[:HAS_CATEGORY]->(cat:Category {name: $category})` pattern). -/
def originDocs (db : GraphDB) (chunkIds : List Nat) (category : Option String) :
    List Doc :=
  db.docs.filter (fun d =>
    ownsChunk db chunkIds d.id &&
      (match category with
       | none => true
       | some c => hasCat db d.id c))

/-- `OPTIONAL MATCH (d)-[:RELATED_TO]->(related:Document)`: the documents
directly related to `d`. -/
def relTargets (db : GraphDB) (d : Nat) : List Doc :=
  db.docs.filter (fun e => db.relatedTo.any (fun p => p.1 == d && p.2 == e.id))

/-- One row of the first-pass query result, as consumed by the Python loop:
`record["doc_id"]`, `record["title"]`, `record["related_docs"]`. -/
structure NeoRecord where
  doc_id : Nat
  title : String
  related_docs : List (Option Nat × Option String)
deriving DecidableEq, Repr

/-- `collect(DISTINCT {doc_id: related.id, title: related.title})`.  When the
`OPTIONAL MATCH` finds nothing, `related` is `null` and the collected list is
the one-element list containing the all-`null` map (Cypher builds the map
from a `null` node rather than skipping it). -/
def relatedEntries (db : GraphDB) (d : Nat) : List (Option Nat × Option String) :=
  match (relTargets db d).dedup with
  | [] => [(none, none)]
  | ts => ts.map (fun e => (some e.id, some e.title))

/-- The full first-pass query result: one record per distinct origin
document. -/
def neoRecords (db : GraphDB) (chunkIds : List Nat) (category : Option String) :
    List NeoRecord :=
  (originDocs db chunkIds category).map
    (fun d => { doc_id := d.id, title := d.title, related_docs := relatedEntries db d.id })

/-! ## The Python processing loops of `search_documentation` -/

/-- The inner loop `for related in record["related_docs"]`: `seen` is the
`related_docs` Python set (kept as a duplicate-free list), `acc` the
`results["related_documents"]` list.  A new entry is appended and recorded
in `seen`; the loop `break`s as soon as `len(related_docs) >= limit` after
an insertion. -/
def processRelated (limit : Nat) :
    List (Option Nat × Option String) → List (Option Nat) → List RelDoc →
      List (Option Nat) × List RelDoc
  | [], seen, acc => (seen, acc)
  | (rid, rtitle) :: rest, seen, acc =>
    if seen.contains rid then
      processRelated limit rest seen acc
    else
      let seen' := rid :: seen
      let acc' := acc ++ [{ doc_id := rid, title := rtitle, graph_score := none }]
      if limit ≤ seen'.length then (seen', acc')
      else processRelated limit rest seen' acc'

/-- The outer loop `for record in result`: the origin document is appended
unconditionally, then its related entries are processed with the shared
`seen` set. -/
def processRecords (limit : Nat) :
    List NeoRecord → List (Option Nat) → List RelDoc → List RelDoc
  | [], _, acc => acc
  | r :: rest, seen, acc =>
    let acc1 := acc ++ [{ doc_id := some r.doc_id, title := some r.title,
                          graph_score := none }]
    let p := processRelated limit r.related_docs seen acc1
    processRecords limit rest p.1 p.2

/-! ## The vector stage with its call-shape fallback -/

/-- Which call shapes of `qdrant_client.search` were attempted. -/
inductive CallShape where
  | canonical
  | legacy
deriving DecidableEq, Repr

/-- Conversion of a Qdrant hit into an element of `results["chunks"]`; a
missing `text` payload falls back to the empty string. -/
def toChunk (h : QdrantHit) : Chunk :=
  { chunk_id := h.id, text := h.payloadText.getD "", score := h.score }

/-- Scores of a hit list are non-increasing (the ordering contract of the
vector-index boundary). -/
def hitsDesc : List QdrantHit → Bool
  | [] => true
  | [_] => true
  | a :: b :: t => (decide (b.score ≤ a.score)) && hitsDesc (b :: t)

/-- Scores of an emitted chunk list are non-increasing. -/
def chunksDesc : List Chunk → Bool
  | [] => true
  | [_] => true
  | a :: b :: t => (decide (b.score ≤ a.score)) && chunksDesc (b :: t)

/-- The `try/except` block around the Qdrant search: try the canonical
(`query_vector=`) shape; on a `TypeError` retry once with the legacy
(`vector=`) shape; any other failure — of either shape — is captured as the
`"Qdrant search error: ..."` field with an empty chunk list.  The second
component records the call shapes attempted, in order. -/
def qdrantStage (client : QdrantClient) (limit : Nat) :
    (List Chunk × Option String) × List CallShape :=
  match client.canonical limit with
  | .ok hits => ((hits.map toChunk, none), [.canonical])
  | .typeError _ =>
    (match client.legacy limit with
     | .ok hits => ((hits.map toChunk, none), [.canonical, .legacy])
     | .typeError m =>
       (([], some ("Qdrant search error: " ++ m)), [.canonical, .legacy])
     | .otherError m =>
       (([], some ("Qdrant search error: " ++ m)), [.canonical, .legacy]))
  | .otherError m => (([], some ("Qdrant search error: " ++ m)), [.canonical])

/-- `DocumentationGPTTool.search_documentation`. -/
def searchDocumentation (env : Env) (query : String) (limit : Nat)
    (category : Option String) : SearchResult :=
  match env.model with
  | .loadFails msg =>
    { query := query, chunks := [], related_documents := [],
      error := some ("Failed to load embedding model: " ++ msg) }
  | .loaded =>
    let chunks := (qdrantStage env.qdrant limit).1.1
    let err := (qdrantStage env.qdrant limit).1.2
    if env.neo4jUp && !chunks.isEmpty then
      match env.graphFail with
      | some m =>
        { query := query, chunks := chunks, related_documents := [],
          error := some ("Neo4j query error: " ++ m) }
      | none =>
        { query := query, chunks := chunks,
          related_documents :=
            processRecords limit
              (neoRecords env.db (chunks.map (fun c => c.chunk_id)) category) [] [],
          error := err }
    else
      { query := query, chunks := chunks, related_documents := [], error := err }

/-! ## Semantics of the deep-expansion Cypher query -/

/-- `related.id NOT IN $doc_ids` under Cypher null semantics: the test is
`true` only when the id is absent from the list AND the list contains no
`null` (a `null` element makes a failed `IN` evaluate to `null`, and `WHERE`
drops non-`true` rows). -/
def notInWithNulls (i : Nat) (l : List (Option Nat)) : Bool :=
  !(l.contains (some i)) && !(l.contains none)

/-- Number of `RELATED_TO` relationship instances from `a` to `b`. -/
def edgeCount (db : GraphDB) (a b : Nat) : Nat :=
  (db.relatedTo.filter (fun p => p.1 == a && p.2 == b)).length

/-- Number of two-edge `RELATED_TO` paths from `s` to `r` that use two
distinct relationship instances (Cypher paths never repeat a
relationship). -/
def twoHopCount (db : GraphDB) (s r : Nat) : Nat :=
  ((db.relatedTo.enum.map (fun e1 =>
    (db.relatedTo.enum.filter (fun e2 =>
      e1.1 != e2.1 && e1.2.1 == s && e1.2.2 == e2.2.1 && e2.2.2 == r)).length)).sum)

/-- Number of matches of `(s)-[:RELATED_TO*1..2]->(r)`. -/
def pathCount (db : GraphDB) (s r : Nat) : Nat :=
  edgeCount db s r + twoHopCount db s r

/-- One row of the deep-expansion query: `doc_id`, `title`,
`relevance_score`. -/
structure DeepRow where
  doc_id : Nat
  title : String
  score : Nat
deriving DecidableEq, Repr

/-- The ungrouped candidates of the deep-expansion query: distinct documents
reachable in 1–2 `RELATED_TO` hops from the seed set, passing the
`NOT IN $doc_ids` filter, each with `count(*)` — the total number of
(seed, path) matches reaching it. -/
def deepCandidates (db : GraphDB) (docIds : List (Option Nat)) : List DeepRow :=
  let seeds := db.docs.filter (fun d => docIds.contains (some d.id))
  ((db.docs.dedup).filter (fun r =>
      notInWithNulls r.id docIds &&
        decide (0 < (seeds.map (fun s => pathCount db s.id r.id)).sum))).map
    (fun r => { doc_id := r.id, title := r.title,
                score := (seeds.map (fun s => pathCount db s.id r.id)).sum })

/-- Stable insertion for the descending `ORDER BY relevance_score DESC`. -/
def insertDesc (x : DeepRow) : List DeepRow → List DeepRow
  | [] => [x]
  | y :: ys => if y.score < x.score then x :: y :: ys else y :: insertDesc x ys

/-- Stable descending sort by `relevance_score`. -/
def sortDesc : List DeepRow → List DeepRow
  | [] => []
  | x :: xs => insertDesc x (sortDesc xs)

/-- The deep-expansion query of `hybrid_search`: order the candidates by
descending score and apply `LIMIT $limit`. -/
def expandDeep (db : GraphDB) (docIds : List (Option Nat)) (limit : Nat) :
    List DeepRow :=
  (sortDesc (deepCandidates db docIds)).take limit

/-- `DocumentationGPTTool.hybrid_search`. -/
def hybridSearch (env : Env) (query : String) (limit : Nat)
    (category : Option String) (expand_context : Bool) : SearchResult :=
  let vr := searchDocumentation env query (limit * 2) category
  if !expand_context then vr
  else
    if env.neo4jUp then
      match env.deepFail with
      | some m => { vr with error := some ("Graph expansion error: " ++ m) }
      | none =>
        let docIds := vr.related_documents.map (fun r => r.doc_id)
        let rows := expandDeep env.db docIds limit
        { vr with
          related_documents := vr.related_documents ++ rows.map (fun r =>
            { doc_id := some r.doc_id, title := some r.title,
              graph_score := some r.score }) }
    else
      { vr with
        error := some ("Graph expansion error: NoneType object has no attribute session") }

/-! ## Concrete example environments used by witnesses and counterexamples -/

/-- A fixed query string for concrete instances. -/
def q0 : String := "installation steps"

/-- Example graph: documents 1 and 2 own the retrieved chunks; document 1 is
related to 3, and document 2 is related back to origin 1. -/
def dbA : GraphDB :=
  { docs := [{ id := 1, title := "A" }, { id := 2, title := "B" },
             { id := 3, title := "C" }],
    chunkOwner := [(10, 1), (11, 2)],
    relatedTo := [(1, 3), (2, 1)],
    hasCategory := [] }

/-- A Qdrant client that answers the canonical call shape with two hits. -/
def clientA : QdrantClient :=
  { canonical := fun _ =>
      .ok [{ id := 10, score := 9, payloadText := some ("t1") },
           { id := 11, score := 8, payloadText := some ("t2") }],
    legacy := fun _ => .otherError ("unused") }

/-- Fully working environment over `dbA`. -/
def envA : Env :=
  { model := .loaded, qdrant := clientA, neo4jUp := true, db := dbA,
    graphFail := none, deepFail := none }

/-- Environment whose vector index fails with a non-`TypeError` error. -/
def envF : Env :=
  { model := .loaded,
    qdrant := { canonical := fun _ => .otherError ("boom"),
                legacy := fun _ => .otherError ("boom2") },
    neo4jUp := true, db := dbA, graphFail := none, deepFail := none }

/-! ## Further example environments -/

/-- Graph for the deep-expansion examples: document 1 owns the only chunk,
1 → 2, 1 → 3, 2 → 4. -/
def dbH : GraphDB :=
  { docs := [{ id := 1, title := "A" }, { id := 2, title := "B" },
             { id := 3, title := "C" }, { id := 4, title := "D" }],
    chunkOwner := [(10, 1)],
    relatedTo := [(1, 2), (1, 3), (2, 4)],
    hasCategory := [] }

/-- Working environment over `dbH` with a single vector hit. -/
def envH : Env :=
  { model := .loaded,
    qdrant := { canonical := fun _ =>
                  .ok [{ id := 10, score := 5, payloadText := some ("t") }],
                legacy := fun _ => .otherError ("unused") },
    neo4jUp := true, db := dbH, graphFail := none, deepFail := none }

/-- Graph for the limit-overshoot example: origins 1 and 2, each with its
own fresh related document. -/
def dbB : GraphDB :=
  { docs := [{ id := 1, title := "A" }, { id := 2, title := "B" },
             { id := 3, title := "R1" }, { id := 4, title := "R2" }],
    chunkOwner := [(10, 1), (11, 2)],
    relatedTo := [(1, 3), (2, 4)],
    hasCategory := [] }

/-- Working environment over `dbB`. -/
def envB : Env :=
  { model := .loaded, qdrant := clientA, neo4jUp := true, db := dbB,
    graphFail := none, deepFail := none }

/-- Graph for the category example: both documents own chunks but only
document 1 carries the category `"api"`; 1 → 2. -/
def dbC : GraphDB :=
  { docs := [{ id := 1, title := "A" }, { id := 2, title := "B" }],
    chunkOwner := [(10, 1), (11, 2)],
    relatedTo := [(1, 2)],
    hasCategory := [(1, "api")] }

/-- Working environment over `dbC`. -/
def envC : Env :=
  { model := .loaded, qdrant := clientA, neo4jUp := true, db := dbC,
    graphFail := none, deepFail := none }

/-- The category name used in the concrete category example. -/
def catApi : String := "api"

/-! ## Shape lemmas about `search_documentation` -/

/-- If the vector stage produced an error, it produced no chunks. -/
theorem qdrantStage_error_chunks (client : QdrantClient) (limit : Nat)
    (h : ((qdrantStage client limit).1.2).isSome = true) :
    (qdrantStage client limit).1.1 = [] := by
  cases hc : client.canonical limit with
  | ok hits => simp only [qdrantStage, hc] at h; simp at h
  | typeError m =>
    simp only [qdrantStage, hc] at h ⊢
    cases hl : client.legacy limit with
    | ok hits2 => rw [hl] at h; simp at h
    | typeError m2 => rfl
    | otherError m2 => rfl
  | otherError m => simp only [qdrantStage, hc]

/-- The chunks field is exactly what the vector stage produced. -/
theorem searchDocumentation_chunks (env : Env) (q : String) (limit : Nat)
    (cat : Option String) (hm : env.model = ModelState.loaded) :
    (searchDocumentation env q limit cat).chunks = (qdrantStage env.qdrant limit).1.1 := by
  simp only [searchDocumentation, hm]
  split
  · split <;> rfl
  · rfl

/-- When the vector stage produced no chunks, the whole result is the
error-annotated empty result: no graph expansion runs. -/
theorem searchDocumentation_no_chunks (env : Env) (q : String) (limit : Nat)
    (cat : Option String) (hm : env.model = ModelState.loaded)
    (hempty : (qdrantStage env.qdrant limit).1.1 = []) :
    searchDocumentation env q limit cat =
      { query := q, chunks := [], related_documents := [],
        error := (qdrantStage env.qdrant limit).1.2 } := by
  simp only [searchDocumentation, hm, hempty]
  simp

/-- The related-documents list is either empty or the processed first-pass
query result. -/
theorem searchDocumentation_related_shape (env : Env) (q : String) (limit : Nat)
    (cat : Option String) :
    (searchDocumentation env q limit cat).related_documents = [] ∨
      (searchDocumentation env q limit cat).related_documents =
        processRecords limit
          (neoRecords env.db
            (((qdrantStage env.qdrant limit).1.1).map (fun c => c.chunk_id)) cat)
          [] [] := by
  cases hm : env.model with
  | loadFails msg => left; simp [searchDocumentation, hm]
  | loaded =>
    simp only [searchDocumentation, hm]
    split
    · split
      · left; rfl
      · right; rfl
    · left; rfl

/-- On the success path the related-documents list is the processed
first-pass query result (and empty when no chunks came back). -/
theorem searchDocumentation_related_success (env : Env) (q : String) (limit : Nat)
    (cat : Option String) (hm : env.model = ModelState.loaded)
    (hn : env.neo4jUp = true) (hg : env.graphFail = none) :
    (searchDocumentation env q limit cat).related_documents =
      (if ((qdrantStage env.qdrant limit).1.1).isEmpty then [] else
        processRecords limit
          (neoRecords env.db
            (((qdrantStage env.qdrant limit).1.1).map (fun c => c.chunk_id)) cat)
          [] []) := by
  simp only [searchDocumentation, hm, hn, hg, Bool.true_and]
  cases he : ((qdrantStage env.qdrant limit).1.1).isEmpty <;> simp [he]

/-- Shared failure argument: model loaded, vector stage errored — the result
is empty chunks, the captured error, and no related documents. -/
theorem searchFailureAux (env : Env) (q : String) (limit : Nat) (cat : Option String)
    (hm : env.model = ModelState.loaded)
    (hfail : ((qdrantStage env.qdrant limit).1.2).isSome = true) :
    (searchDocumentation env q limit cat).chunks = [] ∧
      (searchDocumentation env q limit cat).error.isSome = true ∧
      (searchDocumentation env q limit cat).related_documents = [] := by
  have hempty := qdrantStage_error_chunks env.qdrant limit hfail
  rw [searchDocumentation_no_chunks env q limit cat hm hempty]
  exact ⟨rfl, hfail, rfl⟩

/-! ## The claims -/

/-- C4: with `expand_context=False`, `hybrid_search` returns exactly the
result of `search_documentation` called with `limit*2` — the code returns
the oversampled first-stage result unchanged. -/
theorem C4_no_expand_equals_oversampled (env : Env) (q : String) (limit : Nat)
    (cat : Option String) :
    hybridSearch env q limit cat false = searchDocumentation env q (limit * 2) cat := rfl

/-- C10: with `expand_context=True`, `hybrid_search` keeps the `query` and
`chunks` fields of the first-stage result unchanged, and the first-stage
related-documents list is an unchanged initial segment of the final one —
the deep-expansion phase only appends (this also covers the branches where
the deep graph query fails or the driver is absent, which only set the
`error` field). -/
theorem C10_deep_expansion_frame (env : Env) (q : String) (limit : Nat)
    (cat : Option String) :
    (hybridSearch env q limit cat true).query =
        (searchDocumentation env q (limit * 2) cat).query ∧
      (hybridSearch env q limit cat true).chunks =
        (searchDocumentation env q (limit * 2) cat).chunks ∧
      (hybridSearch env q limit cat true).related_documents.take
          (searchDocumentation env q (limit * 2) cat).related_documents.length =
        (searchDocumentation env q (limit * 2) cat).related_documents := by
  unfold hybridSearch
  cases hn : env.neo4jUp with
  | false => simp [List.take_length]
  | true =>
    cases hd : env.deepFail with
    | some m => simp [hd, List.take_length]
    | none => simp [hd, List.take_left]

/-- C5: if the vector index call fails (all call shapes exhausted), the
result has `chunks = []`, a non-empty `error`, and `related_documents = []`
— no graph expansion is attempted on zero chunks. -/
theorem C5_vector_failure (env : Env) (q : String) (limit : Nat) (cat : Option String)
    (hm : env.model = ModelState.loaded)
    (hfail : ((qdrantStage env.qdrant limit).1.2).isSome = true) :
    (searchDocumentation env q limit cat).chunks = [] ∧
      (searchDocumentation env q limit cat).error.isSome = true ∧
      (searchDocumentation env q limit cat).related_documents = [] :=
  searchFailureAux env q limit cat hm hfail

/-- Witness for C5 at the concrete failing environment `envF`. -/
theorem C5_vector_failure_witness :
    (searchDocumentation envF q0 3 none).chunks = [] ∧
      (searchDocumentation envF q0 3 none).error.isSome = true ∧
      (searchDocumentation envF q0 3 none).related_documents = [] :=
  C5_vector_failure envF q0 3 none rfl (by decide)

/-- C9: the vector stage tries the canonical call shape first; on a
signature-mismatch (`TypeError`) it retries the legacy shape exactly once
(and otherwise never calls it); any failure — a non-`TypeError` of the
canonical shape, or exhaustion of both shapes — is captured into the
result's error field with an empty chunk list instead of propagating. -/
theorem C9_call_shape_fallback (env : Env) (q : String) (limit : Nat)
    (cat : Option String) (hm : env.model = ModelState.loaded) :
    ((qdrantStage env.qdrant limit).2.head? = some CallShape.canonical) ∧
      ((qdrantStage env.qdrant limit).2.count CallShape.legacy =
        (match env.qdrant.canonical limit with
         | QdrantOutcome.typeError _ => 1
         | _ => 0)) ∧
      (∀ m, env.qdrant.canonical limit = QdrantOutcome.otherError m →
        (searchDocumentation env q limit cat).chunks = [] ∧
          (searchDocumentation env q limit cat).error.isSome = true) ∧
      (∀ m, env.qdrant.canonical limit = QdrantOutcome.typeError m →
        (∀ hits, env.qdrant.legacy limit ≠ QdrantOutcome.ok hits) →
        (searchDocumentation env q limit cat).chunks = [] ∧
          (searchDocumentation env q limit cat).error.isSome = true) := by
  refine ⟨?_, ?_, ?_, ?_⟩
  · cases hc : env.qdrant.canonical limit with
    | ok hits => simp only [qdrantStage, hc]; rfl
    | typeError m =>
      simp only [qdrantStage, hc]
      cases hl : env.qdrant.legacy limit <;> rfl
    | otherError m => simp only [qdrantStage, hc]; rfl
  · cases hc : env.qdrant.canonical limit with
    | ok hits => simp only [qdrantStage, hc]; rfl
    | typeError m =>
      simp only [qdrantStage, hc]
      cases hl : env.qdrant.legacy limit <;> rfl
    | otherError m => simp only [qdrantStage, hc]; rfl
  · intro m hc
    have hfail : ((qdrantStage env.qdrant limit).1.2).isSome = true := by
      simp only [qdrantStage, hc]; rfl
    have h := searchFailureAux env q limit cat hm hfail
    exact ⟨h.1, h.2.1⟩
  · intro m hc hl
    have hfail : ((qdrantStage env.qdrant limit).1.2).isSome = true := by
      simp only [qdrantStage, hc]
      cases hle : env.qdrant.legacy limit with
      | ok hits => exact absurd hle (hl hits)
      | typeError m2 => rfl
      | otherError m2 => rfl
    have h := searchFailureAux env q limit cat hm hfail
    exact ⟨h.1, h.2.1⟩

/-- Witness for C9: the non-`TypeError` failure of `envF` is captured as an
error field with no chunks. -/
theorem C9_call_shape_fallback_witness :
    (searchDocumentation envF q0 3 none).chunks = [] ∧
      (searchDocumentation envF q0 3 none).error.isSome = true :=
  (C9_call_shape_fallback envF q0 3 none rfl).2.2.1 ("boom") rfl

/-! ## Deep expansion never returns a seed document -/

theorem mem_insertDesc {x y : DeepRow} {l : List DeepRow}
    (h : x ∈ insertDesc y l) : x = y ∨ x ∈ l := by
  induction l with
  | nil => simp only [insertDesc, List.mem_singleton] at h; exact Or.inl h
  | cons a t ih =>
    simp only [insertDesc] at h
    split at h
    · rcases List.mem_cons.1 h with h1 | h1
      · exact Or.inl h1
      · exact Or.inr h1
    · rcases List.mem_cons.1 h with h1 | h1
      · exact Or.inr (by rw [h1]; exact List.mem_cons_self a t)
      · rcases ih h1 with h2 | h2
        · exact Or.inl h2
        · exact Or.inr (List.mem_cons_of_mem a h2)

theorem mem_sortDesc {x : DeepRow} {l : List DeepRow} (h : x ∈ sortDesc l) :
    x ∈ l := by
  induction l with
  | nil => simp [sortDesc] at h
  | cons a t ih =>
    simp only [sortDesc] at h
    rcases mem_insertDesc h with h1 | h1
    · exact h1 ▸ List.mem_cons_self a t
    · exact List.mem_cons_of_mem a (ih h1)

/-- Every row the deep-expansion query returns passes its
`related.id NOT IN $doc_ids` filter. -/
theorem expandDeep_not_seed {db : GraphDB} {docIds : List (Option Nat)}
    {limit : Nat} {r : DeepRow} (h : r ∈ expandDeep db docIds limit) :
    docIds.contains (some r.doc_id) = false := by
  have h1 : r ∈ sortDesc (deepCandidates db docIds) :=
    List.take_subset limit _ h
  have h2 : r ∈ deepCandidates db docIds := mem_sortDesc h1
  simp only [deepCandidates, List.mem_map] at h2
  obtain ⟨d, hd, hr⟩ := h2
  have hp := (List.mem_filter.1 hd).2
  rw [Bool.and_eq_true] at hp
  have hni := hp.1
  unfold notInWithNulls at hni
  rw [Bool.and_eq_true] at hni
  have hcon := hni.1
  rw [Bool.not_eq_true'] at hcon
  rw [← hr]
  exact hcon

/-- C6: `expandDeep` — the multi-hop traversal run by `hybrid_search` —
never returns a document whose doc_id is in its input seed set: the Cypher
query filters with `related.id NOT IN $doc_ids`. -/
theorem C6_expandDeep_excludes_seeds (db : GraphDB) (docIds : List (Option Nat))
    (limit : Nat) (r : DeepRow) (h : r ∈ expandDeep db docIds limit) :
    docIds.contains (some r.doc_id) = false :=
  expandDeep_not_seed h

/-- Witness for C6: over `dbH` with seed set `{1}`, the returned document 2
is outside the seed set. -/
theorem C6_expandDeep_excludes_seeds_witness :
    ({ doc_id := 2, title := "B", score := 1 } : DeepRow) ∈ expandDeep dbH [some 1] 5 ∧
      ([some 1] : List (Option Nat)).contains (some 2) = false :=
  ⟨by decide,
   C6_expandDeep_excludes_seeds dbH [some 1] 5
     { doc_id := 2, title := "B", score := 1 } (by decide)⟩

/-! ## The deep-expansion append step cannot duplicate the first pass -/

/-- Entries appended by the deep-expansion phase of `hybrid_search` never
carry a doc_id already present in the first-pass related-documents list: the
Python append loop performs no deduplication, but the graph query itself
already excludes every collected doc_id. -/
theorem hybrid_append_fresh (env : Env) (q : String) (limit : Nat)
    (cat : Option String) (r : RelDoc)
    (hr : r ∈ (hybridSearch env q limit cat true).related_documents.drop
        (searchDocumentation env q (limit * 2) cat).related_documents.length) :
    r.doc_id ∉ (searchDocumentation env q (limit * 2) cat).related_documents.map
        (fun e => e.doc_id) := by
  unfold hybridSearch at hr
  cases hn : env.neo4jUp with
  | false =>
    rw [hn] at hr
    have hr2 : r ∈ (searchDocumentation env q (limit * 2) cat).related_documents.drop
        (searchDocumentation env q (limit * 2) cat).related_documents.length := hr
    rw [List.drop_length] at hr2
    exact absurd hr2 (List.not_mem_nil r)
  | true =>
    rw [hn] at hr
    cases hd : env.deepFail with
    | some m =>
      rw [hd] at hr
      have hr2 : r ∈ (searchDocumentation env q (limit * 2) cat).related_documents.drop
          (searchDocumentation env q (limit * 2) cat).related_documents.length := hr
      rw [List.drop_length] at hr2
      exact absurd hr2 (List.not_mem_nil r)
    | none =>
      rw [hd] at hr
      have hr2 : r ∈ ((searchDocumentation env q (limit * 2) cat).related_documents ++
          (expandDeep env.db
            ((searchDocumentation env q (limit * 2) cat).related_documents.map
              (fun x : RelDoc => x.doc_id)) limit).map
            (fun x : DeepRow =>
              ({ doc_id := some x.doc_id, title := some x.title,
                 graph_score := some x.score } : RelDoc))).drop
          (searchDocumentation env q (limit * 2) cat).related_documents.length := hr
      rw [List.drop_left] at hr2
      obtain ⟨row, hrow, hre⟩ := List.mem_map.1 hr2
      intro hmem
      have hseed := expandDeep_not_seed hrow
      have hmm : ((searchDocumentation env q (limit * 2) cat).related_documents.map
          (fun x => x.doc_id)).contains (some row.doc_id) = true := by
        apply List.elem_eq_true_of_mem
        have : some row.doc_id = r.doc_id := by rw [← hre]
        rw [this]
        exact hmem
      rw [hseed] at hmm
      exact Bool.false_ne_true hmm

/-- C3 counterexample: the claim asserts that for some input the
deep-expansion append produces a doc_id already present in the first-pass
list; this is impossible for every input, because the deep query excludes
all first-pass doc_ids. -/
theorem C3_first_pass_duplicate_impossible :
    ¬ ∃ (env : Env) (q : String) (limit : Nat) (cat : Option String) (r : RelDoc),
        r ∈ (hybridSearch env q limit cat true).related_documents.drop
            (searchDocumentation env q (limit * 2) cat).related_documents.length ∧
          r.doc_id ∈ (searchDocumentation env q (limit * 2) cat).related_documents.map
              (fun e => e.doc_id) := by
  rintro ⟨env, q, limit, cat, r, h1, h2⟩
  exact hybrid_append_fresh env q limit cat r h1 h2

/-- C3 amended: the Python append step itself performs no deduplication, but
the deep-expansion graph query excludes every doc_id collected from the
first-pass list, so no appended entry ever duplicates a first-pass
doc_id. -/
theorem C3_amended_append_is_fresh (env : Env) (q : String) (limit : Nat)
    (cat : Option String) (r : RelDoc)
    (hr : r ∈ (hybridSearch env q limit cat true).related_documents.drop
        (searchDocumentation env q (limit * 2) cat).related_documents.length) :
    r.doc_id ∉ (searchDocumentation env q (limit * 2) cat).related_documents.map
        (fun e => e.doc_id) :=
  hybrid_append_fresh env q limit cat r hr

/-- Witness for the amended C3 at `envH`: the deep-expansion entry for
document 4 is appended and its doc_id is absent from the first pass. -/
theorem C3_amended_append_is_fresh_witness :
    ({ doc_id := some 4, title := some ("D"), graph_score := some 2 } : RelDoc) ∈
        (hybridSearch envH q0 2 none true).related_documents.drop
          (searchDocumentation envH q0 (2 * 2) none).related_documents.length ∧
      ({ doc_id := some 4, title := some ("D"), graph_score := some 2 } : RelDoc).doc_id ∉
        (searchDocumentation envH q0 (2 * 2) none).related_documents.map
          (fun e => e.doc_id) :=
  ⟨by decide, C3_amended_append_is_fresh envH q0 2 none
    { doc_id := some 4, title := some ("D"), graph_score := some 2 } (by decide)⟩

/-! ## Invariants of the related-document processing loops -/

/-- Counting step for one inserted related entry: inserting an unseen id
moves one unit from the "`j` not yet seen" budget into the count. -/
theorem relatedStepCount (j rid : Option Nat) (rtitle : Option String)
    (seen : List (Option Nat)) (acc : List RelDoc)
    (hmem : ¬ seen.contains rid = true) :
    ((acc ++ [({ doc_id := rid, title := rtitle, graph_score := none } : RelDoc)]).map
        (fun r : RelDoc => r.doc_id)).count j +
        (if j ∈ rid :: seen then 0 else 1) =
      (acc.map (fun r : RelDoc => r.doc_id)).count j + (if j ∈ seen then 0 else 1) := by
  have hns : rid ∉ seen := fun hc => hmem (List.elem_eq_true_of_mem hc)
  have hcnt : ((acc ++ [({ doc_id := rid, title := rtitle, graph_score := none } :
      RelDoc)]).map (fun r : RelDoc => r.doc_id)).count j =
      (acc.map (fun r : RelDoc => r.doc_id)).count j +
        (if (rid == j) = true then 1 else 0) := by
    simp [List.count_append, List.count_cons]
  rw [hcnt]
  by_cases hj : j = rid
  · subst hj
    have h1 : (if j ∈ j :: seen then 0 else 1) = 0 := by simp
    have h2 : (if j ∈ seen then 0 else 1) = 1 := by simp [hns]
    have h3 : (if (j == j) = true then 1 else 0) = 1 := by simp
    rw [h1, h2, h3]
  · have hj2 : ¬ ((rid == j) = true) := fun hb => hj (beq_iff_eq.1 hb).symm
    have h1 : (if j ∈ rid :: seen then 0 else 1) = (if j ∈ seen then 0 else 1) := by
      simp [List.mem_cons, hj]
    have h3 : (if (rid == j) = true then 1 else 0) = 0 := by simp [hj2]
    rw [h1, h3]
    omega

/-- The count-plus-budget quantity is preserved by the inner related loop:
per id `j`, the number of emitted entries with doc_id `j` can only grow by
consuming the one-unit "not yet seen" budget. -/
theorem processRelated_count (limit : Nat) (j : Option Nat)
    (ents : List (Option Nat × Option String)) :
    ∀ (seen : List (Option Nat)) (acc : List RelDoc),
      (((processRelated limit ents seen acc).2).map (fun r => r.doc_id)).count j +
          (if j ∈ (processRelated limit ents seen acc).1 then 0 else 1) =
        (acc.map (fun r => r.doc_id)).count j + (if j ∈ seen then 0 else 1) := by
  induction ents with
  | nil => intro seen acc; rfl
  | cons e rest ih =>
    intro seen acc
    obtain ⟨rid, rtitle⟩ := e
    simp only [processRelated]
    split
    · exact ih seen acc
    · rename_i hmem
      split
      · exact relatedStepCount j rid rtitle seen acc hmem
      · rw [ih]
        exact relatedStepCount j rid rtitle seen acc hmem

/-- Each insertion of the inner loop grows the output list and the seen set
together. -/
theorem processRelated_len (limit : Nat)
    (ents : List (Option Nat × Option String)) :
    ∀ (seen : List (Option Nat)) (acc : List RelDoc),
      (processRelated limit ents seen acc).2.length + seen.length =
        acc.length + (processRelated limit ents seen acc).1.length := by
  induction ents with
  | nil => intro seen acc; rfl
  | cons e rest ih =>
    intro seen acc
    obtain ⟨rid, rtitle⟩ := e
    simp only [processRelated]
    split
    · exact ih seen acc
    · split
      · simp
        omega
      · have hrec := ih (rid :: seen)
          (acc ++ [{ doc_id := rid, title := rtitle, graph_score := none }])
        have hl1 : (rid :: seen).length = seen.length + 1 := List.length_cons rid seen
        have hl2 :
            (acc ++ [({ doc_id := rid, title := rtitle, graph_score := none } : RelDoc)]).length =
              acc.length + 1 := by simp
        rw [hl1, hl2] at hrec
        omega

/-- The inner loop only appends to the output list. -/
theorem processRelated_extends (limit : Nat)
    (ents : List (Option Nat × Option String)) :
    ∀ (seen : List (Option Nat)) (acc : List RelDoc),
      ∃ t, (processRelated limit ents seen acc).2 = acc ++ t := by
  induction ents with
  | nil => intro seen acc; exact ⟨[], (List.append_nil acc).symm⟩
  | cons e rest ih =>
    intro seen acc
    obtain ⟨rid, rtitle⟩ := e
    simp only [processRelated]
    split
    · exact ih seen acc
    · split
      · exact ⟨[{ doc_id := rid, title := rtitle, graph_score := none }], rfl⟩
      · obtain ⟨t, ht⟩ := ih (rid :: seen)
          (acc ++ [{ doc_id := rid, title := rtitle, graph_score := none }])
        exact ⟨{ doc_id := rid, title := rtitle, graph_score := none } :: t,
          by rw [ht, List.append_assoc]; rfl⟩

/-- Bound on the growth of the seen set in one record: starting below the
limit it never exceeds the limit; starting at or above it, it grows by at
most one entry (the Python `break` fires only after an insertion). -/
theorem processRelated_seen_bound (limit : Nat)
    (ents : List (Option Nat × Option String)) :
    ∀ (seen : List (Option Nat)) (acc : List RelDoc),
      (seen.length < limit →
        (processRelated limit ents seen acc).1.length ≤ limit) ∧
      (limit ≤ seen.length →
        (processRelated limit ents seen acc).1.length ≤ seen.length + 1) := by
  induction ents with
  | nil =>
    intro seen acc
    exact ⟨fun h => Nat.le_of_lt h, fun _ => Nat.le_succ _⟩
  | cons e rest ih =>
    intro seen acc
    obtain ⟨rid, rtitle⟩ := e
    simp only [processRelated]
    split
    · exact ih seen acc
    · split
      · rename_i hstop
        simp only [List.length_cons] at hstop ⊢
        exact ⟨fun h => by omega, fun _ => by omega⟩
      · rename_i hstop
        simp only [List.length_cons] at hstop
        have hrec := ih (rid :: seen)
          (acc ++ [{ doc_id := rid, title := rtitle, graph_score := none }])
        constructor
        · intro h
          exact hrec.1 (by simp; omega)
        · intro h
          omega

/-- Every entry the inner loop emits comes from its input entry list. -/
theorem processRelated_entry_src (limit : Nat)
    (ents : List (Option Nat × Option String)) :
    ∀ (seen : List (Option Nat)) (acc : List RelDoc) (x : RelDoc),
      x ∈ (processRelated limit ents seen acc).2 →
        x ∈ acc ∨ ∃ p ∈ ents,
          x = ({ doc_id := p.1, title := p.2, graph_score := none } : RelDoc) := by
  induction ents with
  | nil => intro seen acc x hx; exact Or.inl hx
  | cons e rest ih =>
    intro seen acc x hx
    obtain ⟨rid, rtitle⟩ := e
    simp only [processRelated] at hx
    split at hx
    · rcases ih seen acc x hx with h | ⟨p, hp, he⟩
      · exact Or.inl h
      · exact Or.inr ⟨p, List.mem_cons_of_mem _ hp, he⟩
    · split at hx
      · rcases List.mem_append.1 hx with h | h
        · exact Or.inl h
        · exact Or.inr ⟨(rid, rtitle), List.mem_cons_self _ _,
            (List.mem_singleton.1 h)⟩
      · rcases ih _ _ x hx with h | ⟨p, hp, he⟩
        · rcases List.mem_append.1 h with h2 | h2
          · exact Or.inl h2
          · exact Or.inr ⟨(rid, rtitle), List.mem_cons_self _ _,
              (List.mem_singleton.1 h2)⟩
        · exact Or.inr ⟨p, List.mem_cons_of_mem _ hp, he⟩

/-- The outer record loop only appends to the output list. -/
theorem processRecords_extends (limit : Nat) (recs : List NeoRecord) :
    ∀ (seen : List (Option Nat)) (acc : List RelDoc),
      ∃ t, processRecords limit recs seen acc = acc ++ t := by
  induction recs with
  | nil => intro seen acc; exact ⟨[], (List.append_nil acc).symm⟩
  | cons r rest ih =>
    intro seen acc
    simp only [processRecords]
    obtain ⟨t1, ht1⟩ := processRelated_extends limit r.related_docs seen
      (acc ++ [{ doc_id := some r.doc_id, title := some r.title, graph_score := none }])
    obtain ⟨t2, ht2⟩ := ih
      (processRelated limit r.related_docs seen
        (acc ++ [{ doc_id := some r.doc_id, title := some r.title, graph_score := none }])).1
      (processRelated limit r.related_docs seen
        (acc ++ [{ doc_id := some r.doc_id, title := some r.title, graph_score := none }])).2
    refine ⟨{ doc_id := some r.doc_id, title := some r.title, graph_score := none } ::
      (t1 ++ t2), ?_⟩
    rw [ht2, ht1, List.append_assoc, List.append_assoc]
    rfl

/-- Every record's origin document is emitted, whatever the limit. -/
theorem processRecords_origin_mem (limit : Nat) (recs : List NeoRecord) :
    ∀ (seen : List (Option Nat)) (acc : List RelDoc) (r : NeoRecord), r ∈ recs →
      ({ doc_id := some r.doc_id, title := some r.title, graph_score := none } : RelDoc) ∈
        processRecords limit recs seen acc := by
  induction recs with
  | nil => intro seen acc r hr; exact absurd hr (List.not_mem_nil r)
  | cons r0 rest ih =>
    intro seen acc r hr
    simp only [processRecords]
    rcases List.mem_cons.1 hr with h | h
    · subst h
      obtain ⟨t1, ht1⟩ := processRelated_extends limit r.related_docs seen
        (acc ++ [{ doc_id := some r.doc_id, title := some r.title, graph_score := none }])
      obtain ⟨t2, ht2⟩ := processRecords_extends limit rest
        (processRelated limit r.related_docs seen
          (acc ++ [{ doc_id := some r.doc_id, title := some r.title, graph_score := none }])).1
        (processRelated limit r.related_docs seen
          (acc ++ [{ doc_id := some r.doc_id, title := some r.title, graph_score := none }])).2
      rw [ht2, ht1]
      apply List.mem_append_left
      apply List.mem_append_left
      exact List.mem_append_right acc (List.mem_singleton.2 rfl)
    · exact ih _ _ r h

/-- Per doc_id bound for the whole loop: the output count of `j` is bounded
by the input count, one unit for the seen-budget, and the number of records
whose origin id is `j`. -/
theorem processRecords_count (limit : Nat) (j : Option Nat) (recs : List NeoRecord) :
    ∀ (seen : List (Option Nat)) (acc : List RelDoc),
      ((processRecords limit recs seen acc).map (fun r : RelDoc => r.doc_id)).count j ≤
        (acc.map (fun r : RelDoc => r.doc_id)).count j + (if j ∈ seen then 0 else 1) +
          (recs.map (fun r : NeoRecord => some r.doc_id)).count j := by
  induction recs with
  | nil =>
    intro seen acc
    simp only [processRecords, List.map_nil, List.count_nil]
    omega
  | cons r rest ih =>
    intro seen acc
    simp only [processRecords]
    have h1 := ih
      (processRelated limit r.related_docs seen
        (acc ++ [{ doc_id := some r.doc_id, title := some r.title, graph_score := none }])).1
      (processRelated limit r.related_docs seen
        (acc ++ [{ doc_id := some r.doc_id, title := some r.title, graph_score := none }])).2
    have h2 := processRelated_count limit j r.related_docs seen
      (acc ++ [{ doc_id := some r.doc_id, title := some r.title, graph_score := none }])
    have h3 :
        ((acc ++ [({ doc_id := some r.doc_id, title := some r.title, graph_score := none } :
            RelDoc)]).map (fun x : RelDoc => x.doc_id)).count j =
          (acc.map (fun x : RelDoc => x.doc_id)).count j +
            (if (some r.doc_id == j) = true then 1 else 0) := by
      simp [List.count_append, List.count_cons]
    have h4 : (((r :: rest).map (fun x : NeoRecord => some x.doc_id)).count j) =
        ((rest.map (fun x : NeoRecord => some x.doc_id)).count j) +
          (if (some r.doc_id == j) = true then 1 else 0) := by
      simp [List.count_cons]
    rw [h3] at h2
    rw [h4]
    omega

/-- Bound on the number of emitted entries whose doc_id is outside a set `S`
covering all origin ids: at most `max limit seen.length + recs.length` new
ones (the per-record `break` lets each record overshoot by at most one). -/
theorem processRecords_filter_bound (limit : Nat) (S : List (Option Nat))
    (recs : List NeoRecord) (hS : ∀ r ∈ recs, (S.contains (some r.doc_id)) = true) :
    ∀ (seen : List (Option Nat)) (acc : List RelDoc),
      ((processRecords limit recs seen acc).filter
          (fun e : RelDoc => !(S.contains e.doc_id))).length + seen.length ≤
        ((acc.filter (fun e : RelDoc => !(S.contains e.doc_id))).length) +
          (max limit seen.length) + recs.length := by
  induction recs with
  | nil =>
    intro seen acc
    simp only [processRecords, List.length_nil]
    have := Nat.le_max_right limit seen.length
    omega
  | cons r rest ih =>
    intro seen acc
    simp only [processRecords]
    have hS0 : (S.contains (some r.doc_id)) = true := hS r (List.mem_cons_self r rest)
    have hSrest : ∀ x ∈ rest, (S.contains (some x.doc_id)) = true :=
      fun x hx => hS x (List.mem_cons_of_mem r hx)
    have ih2 := ih hSrest
      (processRelated limit r.related_docs seen
        (acc ++ [{ doc_id := some r.doc_id, title := some r.title, graph_score := none }])).1
      (processRelated limit r.related_docs seen
        (acc ++ [{ doc_id := some r.doc_id, title := some r.title, graph_score := none }])).2
    -- the filtered length of the accumulator is unchanged by the origin entry
    have hfe :
        ((acc ++ [({ doc_id := some r.doc_id, title := some r.title, graph_score := none } :
            RelDoc)]).filter (fun e : RelDoc => !(S.contains e.doc_id))).length =
          (acc.filter (fun e : RelDoc => !(S.contains e.doc_id))).length := by
      rw [List.filter_append]
      simp [List.filter_cons, hS0, List.elem_iff.1 hS0]
    -- the inner loop can only add as many filtered entries as seen entries
    obtain ⟨t1, ht1⟩ := processRelated_extends limit r.related_docs seen
      (acc ++ [{ doc_id := some r.doc_id, title := some r.title, graph_score := none }])
    have hlen := processRelated_len limit r.related_docs seen
      (acc ++ [{ doc_id := some r.doc_id, title := some r.title, graph_score := none }])
    have hp2len :
        (processRelated limit r.related_docs seen
          (acc ++ [{ doc_id := some r.doc_id, title := some r.title, graph_score := none }])).2.length =
          (acc ++ [({ doc_id := some r.doc_id, title := some r.title, graph_score := none } : RelDoc)]).length + t1.length := by
      rw [ht1]
      simp [List.length_append]
      omega
    have hfp2 :
        ((processRelated limit r.related_docs seen
            (acc ++ [{ doc_id := some r.doc_id, title := some r.title, graph_score := none }])).2.filter
          (fun e : RelDoc => !(S.contains e.doc_id))).length ≤
          (acc.filter (fun e : RelDoc => !(S.contains e.doc_id))).length + t1.length := by
      rw [ht1, List.filter_append]
      have hl : (t1.filter (fun e : RelDoc => !(S.contains e.doc_id))).length ≤ t1.length :=
        List.length_filter_le _ t1
      rw [List.length_append, hfe]
      omega
    -- seen-set growth bound
    have hseen := processRelated_seen_bound limit r.related_docs seen
      (acc ++ [{ doc_id := some r.doc_id, title := some r.title, graph_score := none }])
    have hsl :
        (processRelated limit r.related_docs seen
          (acc ++ [{ doc_id := some r.doc_id, title := some r.title, graph_score := none }])).1.length ≤
          (max limit seen.length) + 1 := by
      by_cases hc : seen.length < limit
      · have := hseen.1 hc
        have := Nat.le_max_left limit seen.length
        omega
      · have := hseen.2 (by omega)
        have := Nat.le_max_right limit seen.length
        omega
    have hmax :
        max limit ((processRelated limit r.related_docs seen
          (acc ++ [{ doc_id := some r.doc_id, title := some r.title, graph_score := none }])).1.length) ≤
          (max limit seen.length) + 1 := by
      have h5 := Nat.le_max_left limit seen.length
      omega
    have hacl :
        (acc ++ [({ doc_id := some r.doc_id, title := some r.title, graph_score := none } :
          RelDoc)]).length = acc.length + 1 := by simp
    simp only [List.length_cons]
    omega

/-- Every emitted entry is either an origin entry of some record or one of
that record's related entries. -/
theorem processRecords_entry_src (limit : Nat) (recs : List NeoRecord) :
    ∀ (seen : List (Option Nat)) (acc : List RelDoc) (x : RelDoc),
      x ∈ processRecords limit recs seen acc →
        x ∈ acc ∨ ∃ r ∈ recs,
          (x = ({ doc_id := some r.doc_id, title := some r.title, graph_score := none } : RelDoc) ∨
            ∃ p ∈ r.related_docs,
              x = ({ doc_id := p.1, title := p.2, graph_score := none } : RelDoc)) := by
  induction recs with
  | nil => intro seen acc x hx; exact Or.inl hx
  | cons r rest ih =>
    intro seen acc x hx
    simp only [processRecords] at hx
    rcases ih _ _ x hx with h | ⟨r2, hr2, hcase⟩
    · rcases processRelated_entry_src limit r.related_docs seen _ x h with h2 | ⟨p, hp, he⟩
      · rcases List.mem_append.1 h2 with h3 | h3
        · exact Or.inl h3
        · exact Or.inr ⟨r, List.mem_cons_self r rest,
            Or.inl (List.mem_singleton.1 h3)⟩
      · exact Or.inr ⟨r, List.mem_cons_self r rest, Or.inr ⟨p, hp, he⟩⟩
    · exact Or.inr ⟨r2, List.mem_cons_of_mem r hr2, hcase⟩

/-- The related-documents list, described through the chunks of the result
itself. -/
theorem searchDocumentation_related_shape2 (env : Env) (q : String) (limit : Nat)
    (cat : Option String) :
    (searchDocumentation env q limit cat).related_documents = [] ∨
      (searchDocumentation env q limit cat).related_documents =
        processRecords limit
          (neoRecords env.db
            ((searchDocumentation env q limit cat).chunks.map (fun c : Chunk => c.chunk_id))
            cat) [] [] := by
  cases hm : env.model with
  | loadFails msg => left; simp [searchDocumentation, hm]
  | loaded =>
    have hch : (searchDocumentation env q limit cat).chunks =
        (qdrantStage env.qdrant limit).1.1 :=
      searchDocumentation_chunks env q limit cat hm
    rw [hch]
    exact searchDocumentation_related_shape env q limit cat

/-- With no retrieved chunks there are no origin documents. -/
theorem originDocs_nil (db : GraphDB) (cat : Option String) :
    originDocs db [] cat = [] := by
  unfold originDocs
  apply List.filter_eq_nil_iff.2
  intro d hd
  unfold ownsChunk
  simp

/-- A duplicate-free list counts every element at most once (stated over the
same `BEq` instance the development uses). -/
theorem nodup_count_le_one {α : Type} [BEq α] [LawfulBEq α] {l : List α}
    (h : l.Nodup) (a : α) : l.count a ≤ 1 := by
  induction l with
  | nil => simp
  | cons x t ih =>
    rcases List.nodup_cons.1 h with ⟨hx, ht⟩
    rw [List.count_cons]
    by_cases hax : (x == a) = true
    · have hxa : x = a := eq_of_beq hax
      have h0 : t.count a = 0 := by
        rw [List.count_eq_zero, ← hxa]
        exact hx
      have h2 : (if (x == a) = true then 1 else 0) = 1 := by simp [hax]
      rw [h0, h2]
    · have h1 := ih ht
      have h2 : (if (x == a) = true then 1 else 0) = 0 := by simp [hax]
      rw [h2]
      omega

/-! ## C1: duplicates in the related-documents list -/

/-- C1 counterexample: over `envA` (documents 1 and 2 own the retrieved
chunks and 2 is `RELATED_TO` 1), document 1 appears twice — once as an
origin and once as a 1-hop related document of origin 2 — because the seen
set only tracks related entries, never origins. -/
theorem C1_duplicate_doc_id_cex :
    ¬ (((searchDocumentation envA q0 5 none).related_documents).map
        (fun r : RelDoc => r.doc_id)).Nodup := by decide

/-- C1 amended: the related-documents list of `search_documentation` can
contain a doc_id at most twice — at most once as an origin entry (origins
are pairwise distinct) and at most once as a graph-discovered related entry
(those are deduplicated by the seen set) — but not at most once, since a
document reachable both ways is emitted twice. -/
theorem C1_amended_at_most_twice (env : Env) (q : String) (limit : Nat)
    (cat : Option String) (hwf : env.db.wf) (j : Option Nat) :
    (((searchDocumentation env q limit cat).related_documents).map
        (fun r : RelDoc => r.doc_id)).count j ≤ 2 := by
  rcases searchDocumentation_related_shape env q limit cat with h | h
  · rw [h]; simp
  · rw [h]
    have hb := processRecords_count limit j
      (neoRecords env.db
        (((qdrantStage env.qdrant limit).1.1).map (fun c : Chunk => c.chunk_id)) cat)
      [] []
    have hnodup : ((neoRecords env.db
        (((qdrantStage env.qdrant limit).1.1).map (fun c : Chunk => c.chunk_id)) cat).map
        (fun r : NeoRecord => some r.doc_id)).Nodup := by
      have h1 : List.Sublist
          (originDocs env.db
            (((qdrantStage env.qdrant limit).1.1).map (fun c : Chunk => c.chunk_id)) cat)
          env.db.docs := List.filter_sublist _
      have h2 := h1.map (fun d : Doc => d.id)
      have h3 := hwf.sublist h2
      have h4 := h3.map (Option.some_injective Nat)
      rw [List.map_map] at h4
      simp only [neoRecords]
      rw [List.map_map]
      exact h4
    have hcount := nodup_count_le_one hnodup j
    have hin : (if j ∈ ([] : List (Option Nat)) then 0 else 1) = 1 := by simp
    rw [hin] at hb
    simp only [List.map_nil, List.count_nil] at hb
    omega

/-- Witness for the amended C1 at `envA`: doc 1 indeed occurs at most twice
(in fact exactly twice). -/
theorem C1_amended_at_most_twice_witness :
    (((searchDocumentation envA q0 5 none).related_documents).map
        (fun r : RelDoc => r.doc_id)).count (some 1) ≤ 2 :=
  C1_amended_at_most_twice envA q0 5 none
    (show (envA.db.docs.map (fun d => d.id)).Nodup by decide) (some 1)

/-! ## C2: the related-document limit -/

/-- C2 counterexample: over `envB` with `limit = 1`, the loop emits two
distinct non-origin documents (3 and 4): the `break` only leaves the
current record's inner loop, so the next origin record adds one more
related document past the limit. -/
theorem C2_limit_overshoot_cex :
    ((searchDocumentation envB q0 1 none).related_documents.filter
        (fun e : RelDoc =>
          !(((neoRecords envB.db ((searchDocumentation envB q0 1 none).chunks.map
              (fun c : Chunk => c.chunk_id)) none).map
            (fun r : NeoRecord => some r.doc_id)).contains e.doc_id))).length = 2 ∧
      ((neoRecords envB.db ((searchDocumentation envB q0 1 none).chunks.map
          (fun c : Chunk => c.chunk_id)) none).map
        (fun r : NeoRecord => some r.doc_id)) = [some 1, some 2] := by decide

/-- C2 amended: every origin document is emitted regardless of the limit,
and the number of emitted non-origin entries is bounded by
`limit + number of origin records` rather than by `limit`: within one
record emission stops once the running count reaches the limit, but each
subsequent record can emit one more related document before its own check
fires. -/
theorem C2_amended_origins_and_soft_limit (env : Env) (q : String) (limit : Nat)
    (cat : Option String) :
    ((env.model = ModelState.loaded ∧ env.neo4jUp = true ∧ env.graphFail = none) →
      ∀ r ∈ neoRecords env.db
          ((searchDocumentation env q limit cat).chunks.map (fun c : Chunk => c.chunk_id))
          cat,
        ({ doc_id := some r.doc_id, title := some r.title, graph_score := none } : RelDoc) ∈
          (searchDocumentation env q limit cat).related_documents) ∧
      ((searchDocumentation env q limit cat).related_documents.filter
          (fun e : RelDoc =>
            !(((neoRecords env.db ((searchDocumentation env q limit cat).chunks.map
                (fun c : Chunk => c.chunk_id)) cat).map
              (fun r : NeoRecord => some r.doc_id)).contains e.doc_id))).length ≤
        limit + (neoRecords env.db ((searchDocumentation env q limit cat).chunks.map
          (fun c : Chunk => c.chunk_id)) cat).length := by
  constructor
  · rintro ⟨hm, hn, hg⟩ r hr
    have hch := searchDocumentation_chunks env q limit cat hm
    rw [hch] at hr
    rw [searchDocumentation_related_success env q limit cat hm hn hg]
    cases he : ((qdrantStage env.qdrant limit).1.1).isEmpty with
    | true =>
      have h0 : (qdrantStage env.qdrant limit).1.1 = [] := by
        cases hq : (qdrantStage env.qdrant limit).1.1 with
        | nil => rfl
        | cons a t => rw [hq] at he; simp [List.isEmpty] at he
      rw [h0] at hr
      simp [neoRecords, originDocs_nil] at hr
    | false =>
      exact processRecords_origin_mem limit _ [] [] r hr
  · rcases searchDocumentation_related_shape2 env q limit cat with h | h
    · rw [h]
      simp
    · have hb := processRecords_filter_bound limit
        ((neoRecords env.db ((searchDocumentation env q limit cat).chunks.map
            (fun c : Chunk => c.chunk_id)) cat).map
          (fun r : NeoRecord => some r.doc_id))
        (neoRecords env.db ((searchDocumentation env q limit cat).chunks.map
          (fun c : Chunk => c.chunk_id)) cat)
        (fun r hr => List.elem_eq_true_of_mem (List.mem_map_of_mem _ hr)) [] []
      rw [h]
      simp only [List.length_nil, List.filter_nil, Nat.max_zero] at hb
      omega

/-- Witness for the amended C2 at `envB` with `limit = 1`: the origin record
of document 1 is emitted, and the non-origin entries respect the soft
bound. -/
theorem C2_amended_origins_and_soft_limit_witness :
    ({ doc_id := some 1, title := some ("A"), graph_score := none } : RelDoc) ∈
        (searchDocumentation envB q0 1 none).related_documents ∧
      ((searchDocumentation envB q0 1 none).related_documents.filter
          (fun e : RelDoc =>
            !(((neoRecords envB.db ((searchDocumentation envB q0 1 none).chunks.map
                (fun c : Chunk => c.chunk_id)) none).map
              (fun r : NeoRecord => some r.doc_id)).contains e.doc_id))).length ≤
        1 + (neoRecords envB.db ((searchDocumentation envB q0 1 none).chunks.map
          (fun c : Chunk => c.chunk_id)) none).length :=
  ⟨(C2_amended_origins_and_soft_limit envB q0 1 none).1 ⟨rfl, rfl, rfl⟩
      { doc_id := 1, title := "A", related_docs := [(some 3, some ("R1"))] } (by decide),
    (C2_amended_origins_and_soft_limit envB q0 1 none).2⟩

/-! ## C7: category filtering of origin documents -/

/-- On the success path, every origin record of the first-pass query is
emitted into the related-documents list, whatever the limit. -/
theorem originRecord_emitted (env : Env) (q : String) (limit : Nat)
    (cat : Option String) (hm : env.model = ModelState.loaded)
    (hn : env.neo4jUp = true) (hg : env.graphFail = none) (r : NeoRecord)
    (hr : r ∈ neoRecords env.db
        ((searchDocumentation env q limit cat).chunks.map (fun ch : Chunk => ch.chunk_id))
        cat) :
    ({ doc_id := some r.doc_id, title := some r.title, graph_score := none } : RelDoc) ∈
      (searchDocumentation env q limit cat).related_documents := by
  have hch := searchDocumentation_chunks env q limit cat hm
  rw [hch] at hr
  rw [searchDocumentation_related_success env q limit cat hm hn hg]
  cases he : ((qdrantStage env.qdrant limit).1.1).isEmpty with
  | true =>
    have h0 : (qdrantStage env.qdrant limit).1.1 = [] := by
      cases hq : (qdrantStage env.qdrant limit).1.1 with
      | nil => rfl
      | cons a t => rw [hq] at he; simp [List.isEmpty] at he
    rw [h0] at hr
    simp [neoRecords, originDocs_nil] at hr
  | false =>
    exact processRecords_origin_mem limit _ [] [] r hr

/-- C7: when a category is set, every origin document — every record of the
first-pass query, i.e. every owner of a retrieved chunk that passed the
filter — carries the category (the Cypher pattern requires its
`HAS_CATEGORY` edge), so no document lacking the category ever appears as
an origin; and on the success path each such origin is indeed returned in
the related-documents list. -/
theorem C7_origin_category (env : Env) (q : String) (limit : Nat) (c : String)
    (r : NeoRecord)
    (hr : r ∈ neoRecords env.db
        ((searchDocumentation env q limit (some c)).chunks.map
          (fun ch : Chunk => ch.chunk_id))
        (some c)) :
    hasCat env.db r.doc_id c = true ∧
      ((env.model = ModelState.loaded ∧ env.neo4jUp = true ∧ env.graphFail = none) →
        ({ doc_id := some r.doc_id, title := some r.title, graph_score := none } : RelDoc) ∈
          (searchDocumentation env q limit (some c)).related_documents) := by
  constructor
  · have hr2 := hr
    simp only [neoRecords, List.mem_map] at hr2
    obtain ⟨d, hd, hrd⟩ := hr2
    have hdp := (List.mem_filter.1 hd).2
    rw [Bool.and_eq_true] at hdp
    have hdcat : hasCat env.db d.id c = true := hdp.2
    rw [← hrd]
    exact hdcat
  · rintro ⟨hm, hn, hg⟩
    exact originRecord_emitted env q limit (some c) hm hn hg r hr

/-- Witness for C7 at `envC` with category `"api"`: the sole origin record
is document 1, which carries the category and is returned; document 2 owns
the higher-scoring chunk 11 but lacks the category and yields no origin
record. -/
theorem C7_origin_category_witness :
    hasCat envC.db 1 catApi = true ∧
      ({ doc_id := some 1, title := some ("A"), graph_score := none } : RelDoc) ∈
        (searchDocumentation envC q0 5 (some catApi)).related_documents :=
  ⟨(C7_origin_category envC q0 5 catApi
      { doc_id := 1, title := "A", related_docs := [(some 2, some ("B"))] } (by decide)).1,
    (C7_origin_category envC q0 5 catApi
      { doc_id := 1, title := "A", related_docs := [(some 2, some ("B"))] } (by decide)).2
      ⟨rfl, rfl, rfl⟩⟩

/-! ## C8: chunk count and ordering -/

theorem chunksDesc_map (l : List QdrantHit) :
    chunksDesc (l.map toChunk) = hitsDesc l := by
  induction l with
  | nil => rfl
  | cons a t ih =>
    cases t with
    | nil => rfl
    | cons b t2 =>
      simp only [List.map_cons, chunksDesc, hitsDesc, toChunk] at ih ⊢
      rw [ih]

/-- C8: under the vector-index boundary contract (each call shape returns at
most `limit` hits ordered by non-increasing score), `search_documentation`
returns at most `limit` chunks ordered by non-increasing score. -/
theorem C8_chunk_limit_and_order (env : Env) (q : String) (limit : Nat)
    (cat : Option String)
    (hc : ∀ hits, env.qdrant.canonical limit = QdrantOutcome.ok hits →
      hits.length ≤ limit ∧ hitsDesc hits = true)
    (hl : ∀ hits, env.qdrant.legacy limit = QdrantOutcome.ok hits →
      hits.length ≤ limit ∧ hitsDesc hits = true) :
    (searchDocumentation env q limit cat).chunks.length ≤ limit ∧
      chunksDesc (searchDocumentation env q limit cat).chunks = true := by
  cases hm : env.model with
  | loadFails msg =>
    have h0 : (searchDocumentation env q limit cat).chunks = [] := by
      simp [searchDocumentation, hm]
    rw [h0]
    exact ⟨Nat.zero_le limit, rfl⟩
  | loaded =>
    rw [searchDocumentation_chunks env q limit cat hm]
    cases hcc : env.qdrant.canonical limit with
    | ok hits =>
      have hq : (qdrantStage env.qdrant limit).1.1 = hits.map toChunk := by
        simp only [qdrantStage, hcc]
      rw [hq, List.length_map, chunksDesc_map]
      exact hc hits hcc
    | typeError m =>
      cases hll : env.qdrant.legacy limit with
      | ok hits =>
        have hq : (qdrantStage env.qdrant limit).1.1 = hits.map toChunk := by
          simp only [qdrantStage, hcc, hll]
        rw [hq, List.length_map, chunksDesc_map]
        exact hl hits hll
      | typeError m2 =>
        have hq : (qdrantStage env.qdrant limit).1.1 = [] := by
          simp only [qdrantStage, hcc, hll]
        rw [hq]
        exact ⟨Nat.zero_le limit, rfl⟩
      | otherError m2 =>
        have hq : (qdrantStage env.qdrant limit).1.1 = [] := by
          simp only [qdrantStage, hcc, hll]
        rw [hq]
        exact ⟨Nat.zero_le limit, rfl⟩
    | otherError m =>
      have hq : (qdrantStage env.qdrant limit).1.1 = [] := by
        simp only [qdrantStage, hcc]
      rw [hq]
      exact ⟨Nat.zero_le limit, rfl⟩

/-- Witness for C8 at `envA` with `limit = 2`: two chunks, scores 9 then 8. -/
theorem C8_chunk_limit_and_order_witness :
    (searchDocumentation envA q0 2 none).chunks.length ≤ 2 ∧
      chunksDesc (searchDocumentation envA q0 2 none).chunks = true :=
  C8_chunk_limit_and_order envA q0 2 none
    (fun hits hh => by
      injection hh with h2
      subst h2
      exact ⟨by decide, by decide⟩)
    (fun hits hh => by injection hh)

end GraphragMCP
